import Mathlib

/-!
# Verification of the cantools CAN database facade and signal codec

This development embeds the `File` facade of `cantools/db/file.py` (message
addition, lookup tables, merge of parse results, encode/decode dispatch) and,
following the specification's description, the signal codec (bit packing for
both byte orders, sign interpretation, scale/offset conversion, value-table
choices, multiplexing).  Machine integers are modelled as `Nat`/`Int`; the
specification's floating-point scale/offset arithmetic is modelled exactly
over `Rat`; fallible operations return `Except`.
-/

namespace Cantools

/-- Association-list lookup: first entry whose key matches wins.  Models a
Python `dict` subscript (`d[k]`) together with `dictSet` below. -/
def alookup {α β : Type} [DecidableEq α] : List (α × β) → α → Option β
  | [], _ => none
  | p :: ps, k => if p.1 = k then some p.2 else alookup ps k

/-- Reverse association-list lookup: first entry whose value matches wins.
Models the reverse direction of a value table (label to raw). -/
def rlookup {α β : Type} [DecidableEq β] : List (α × β) → β → Option α
  | [], _ => none
  | p :: ps, v => if p.2 = v then some p.1 else rlookup ps v

/-- Python `d[k] = v`: the new binding shadows any earlier binding of `k`
for `alookup`, which models dict overwrite semantics. -/
def dictSet {α β : Type} (l : List (α × β)) (k : α) (v : β) : List (α × β) :=
  (k, v) :: l

/-- Byte order of a signal (`big_endian` is Motorola, `little_endian` Intel). -/
inductive ByteOrder
  | big_endian
  | little_endian
deriving DecidableEq

/-- Multiplexer role of a signal: plain, the multiplexor, or multiplexed
under a given multiplexor value. -/
inductive MuxRole
  | noMux
  | isMultiplexor
  | isMultiplexed (id : Nat)
deriving DecidableEq

/-- A decoded signal value: a (scaled or raw) number, or a choice label. -/
inductive Value
  | num (q : Rat)
  | label (s : String)
deriving DecidableEq

/-- A named bit field of a message (spec section 3). -/
structure Signal where
  name : String
  start : Nat
  length : Nat
  byte_order : ByteOrder
  is_signed : Bool
  scale : Rat
  offset : Rat
  minimum : Option Rat := none
  maximum : Option Rat := none
  unit : Option String := none
  choices : List (Int × String) := []
  mux : MuxRole := .noMux
deriving DecidableEq

/-- A CAN message: frame id, name, declared byte length, and its signals
(spec section 3). -/
structure Message where
  frame_id : Nat
  name : String
  byte_length : Nat
  signals : List Signal := []
  sender : Option String := none
  comment : Option String := none
deriving DecidableEq

/-- An ECU node. -/
structure Node where
  name : String
  comment : Option String := none
deriving DecidableEq

/-- A physical CAN bus segment. -/
structure Bus where
  name : String
  baudrate : Option Nat := none
deriving DecidableEq

/-- Attribute definitions are carried through without interpretation. -/
abbrev AttributeDefinition := String

/-- Attribute definition defaults are carried through without
interpretation. -/
abbrev AttributeDefinitionDefault := String

/-- Modelled from the spec: the `Database` aggregate produced by a format
parser (`cantools/db/database.py` is not part of the sources; its fields are
the ones `file.py` reads from a parse result: messages, nodes, buses,
version, attribute definitions and their defaults). -/
structure Database where
  messages : List Message := []
  nodes : List Node := []
  buses : List Bus := []
  version : Option String := none
  attribute_definitions : List AttributeDefinition := []
  attribute_definition_defaults : List AttributeDefinitionDefault := []
deriving DecidableEq

/-- The `File` class of `cantools/db/file.py`: messages, nodes, buses,
version, attribute data and the two lookup tables kept by the facade. -/
structure File where
  messages : List Message := []
  nodes : List Node := []
  buses : List Bus := []
  name_to_message : List (String × Message) := []
  frame_id_to_message : List (Nat × Message) := []
  version : Option String := none
  attribute_definitions : List AttributeDefinition := []
  attribute_definition_defaults : List AttributeDefinitionDefault := []
deriving DecidableEq

/-- Non-fatal warnings emitted by `add_message` on lookup-table collisions
(`LOGGER.warning` calls in the source). -/
inductive Warning
  | nameOverwrite (name : String)
  | frameIdOverwrite (frame_id : Nat)
deriving DecidableEq

/-- Errors of the facade and codec.  `notFoundError` is the spec's name for
the `KeyError` a failed dict lookup raises in the source (spec sections 6, 7
and 9 map exception-based "not found" control flow to `NotFoundError`). -/
inductive DbError
  | notFoundError
  | lengthError
  | rangeError
  | missingSignalError (name : String)
  | unknownChoiceError
deriving DecidableEq

/-- Parse failures (`SyntaxError`/`SemanticError` kinds of spec section 4.1);
their distinction is irrelevant to the facade, which only propagates them. -/
inductive ParseError
  | malformed
  | invalidSchema
deriving DecidableEq

/-- `File.add_message`: append the message to the message list
unconditionally, warn on a name or frame-id collision, then overwrite both
lookup tables.  Total (never raises); the emitted warnings are returned. -/
def add_message (f : File) (m : Message) : File × List Warning :=
  let nameWarnings :=
    if (alookup f.name_to_message m.name).isSome then
      [Warning.nameOverwrite m.name]
    else []
  let frameWarnings :=
    if (alookup f.frame_id_to_message m.frame_id).isSome then
      [Warning.frameIdOverwrite m.frame_id]
    else []
  ({ f with
      messages := f.messages ++ [m]
      name_to_message := dictSet f.name_to_message m.name m
      frame_id_to_message := dictSet f.frame_id_to_message m.frame_id m },
   nameWarnings ++ frameWarnings)

/-- The `for message in database.messages: self.add_message(message)` loop
shared by the three `add_*_string` methods, collecting all warnings. -/
def add_messages (f : File) : List Message → File × List Warning
  | [] => (f, [])
  | m :: rest =>
    let step := add_message f m
    let recs := add_messages step.1 rest
    (recs.1, step.2 ++ recs.2)

/-- Replacing the non-message fields of the file by those of a parse result,
as the tail of each `add_*_string` method does by direct assignment. -/
def replaceParsedFields (f : File) (db : Database) : File :=
  { f with
      nodes := db.nodes
      buses := db.buses
      version := db.version
      attribute_definitions := db.attribute_definitions
      attribute_definition_defaults := db.attribute_definition_defaults }

/-- `File.add_dbc_string`: parse first (`dbc.load_string`), and only on
success add each parsed message and replace nodes, buses, version and
attribute data.  The parser itself is not part of the sources and is passed
as a function; a parse failure propagates and the state is returned as it
was.  Result: new state, emitted warnings, and the propagated error if
any. -/
def add_dbc_string (parse : String → Except ParseError Database)
    (f : File) (s : String) : File × List Warning × Option ParseError :=
  match parse s with
  | .error e => (f, [], some e)
  | .ok db =>
    let step := add_messages f db.messages
    (replaceParsedFields step.1 db, step.2, none)

/-- `File.add_kcd_string`: same body as `add_dbc_string` with the KCD parser
(`kcd.load_string`). -/
def add_kcd_string (parse : String → Except ParseError Database)
    (f : File) (s : String) : File × List Warning × Option ParseError :=
  match parse s with
  | .error e => (f, [], some e)
  | .ok db =>
    let step := add_messages f db.messages
    (replaceParsedFields step.1 db, step.2, none)

/-- `File.add_sym_string`: same body as `add_dbc_string` with the SYM parser
(`sym.load_string`). -/
def add_sym_string (parse : String → Except ParseError Database)
    (f : File) (s : String) : File × List Warning × Option ParseError :=
  match parse s with
  | .error e => (f, [], some e)
  | .ok db =>
    let step := add_messages f db.messages
    (replaceParsedFields step.1 db, step.2, none)

/-- `File.get_message_by_name`: `self._name_to_message[name]`; a missing key
raises (`KeyError`, the spec's `NotFoundError`). -/
def get_message_by_name (f : File) (name : String) : Except DbError Message :=
  match alookup f.name_to_message name with
  | some m => .ok m
  | none => .error .notFoundError

/-- `File.get_message_by_frame_id`: `self._frame_id_to_message[frame_id]`;
a missing key raises (`KeyError`, the spec's `NotFoundError`). -/
def get_message_by_frame_id (f : File) (frame_id : Nat) : Except DbError Message :=
  match alookup f.frame_id_to_message frame_id with
  | some m => .ok m
  | none => .error .notFoundError

/-- `File.get_node_by_name`: linear scan of the node list, first name match
wins; raises if no node of that name exists. -/
def get_node_by_name (f : File) (name : String) : Except DbError Node :=
  match f.nodes.find? (fun nd => nd.name = name) with
  | some nd => .ok nd
  | none => .error .notFoundError

/-- `File.get_bus_by_name`: linear scan of the bus list, first name match
wins; raises if no bus of that name exists. -/
def get_bus_by_name (f : File) (name : String) : Except DbError Bus :=
  match f.buses.find? (fun b => b.name = name) with
  | some b => .ok b
  | none => .error .notFoundError

/-- The `frame_id_or_name` argument of `encode_message`/`decode_message` is
an `int` frame id or a `str` message name. -/
abbrev FrameIdOrName := Sum Nat String

/-- Lookup of a frame-id-or-name key in the integer-keyed
`_frame_id_to_message` table: a string key is never present there. -/
def frameLookup (f : File) : FrameIdOrName → Option Message
  | .inl frame_id => alookup f.frame_id_to_message frame_id
  | .inr _ => none

/-- Lookup of a frame-id-or-name key in the string-keyed `_name_to_message`
table: an integer key is never present there. -/
def nameLookup (f : File) : FrameIdOrName → Option Message
  | .inl _ => none
  | .inr name => alookup f.name_to_message name

/-- The `try: ... self._frame_id_to_message[k] except KeyError:
self._name_to_message[k]` resolution shared by `encode_message` and
`decode_message`: frame-id table first, name table only on a miss, and a
miss in both propagates the lookup failure. -/
def resolveMessage (f : File) (k : FrameIdOrName) : Except DbError Message :=
  match frameLookup f k with
  | some m => .ok m
  | none =>
    match nameLookup f k with
    | some m => .ok m
    | none => .error .notFoundError

/-! ## Signal codec

Modelled from the spec: the `Message.encode`/`Message.decode` signal codec
(spec sections 4.2, 4.3 and 8).  The codec implementation
(`cantools/db/messages.py`) is not part of the sources; only its callers in
`file.py` and the CLI are.  Bit positions, byte orders, two's-complement
interpretation, scale/offset conversion, choice substitution and
multiplexing follow the spec's wording. -/

/-- Bit `n` of a byte payload in the linear "Intel" numbering: bit `n % 8`
(least significant first) of byte `n / 8`.  Bytes beyond the payload read
as zero. -/
def bitAt (p : List Nat) (n : Nat) : Bool :=
  Nat.testBit (p.getD (n / 8) 0) (n % 8)

/-- The number whose little-endian bit expansion is the given list (head is
the least significant bit). -/
def natOfBits : List Bool → Nat
  | [] => 0
  | b :: bs => b.toNat + 2 * natOfBits bs

/-- Reflect a linear bit position inside its byte: `8q + r` becomes
`8q + (7 - r)`.  Translates between the Intel numbering and the Motorola
numbering, in which bit 7 of a byte comes first and numbering descends. -/
def invol (n : Nat) : Nat := 8 * (n / 8) + (7 - n % 8)

/-- Linear (Intel) bit position of logical bit `i` (`i = 0` is the least
significant bit of the field) of a signal.  For a little-endian signal the
field occupies positions `start, start+1, ...` upward.  For a big-endian
signal the start bit denotes the most significant bit of the field and the
field descends in the Motorola numbering, crossing into the most
significant bits of the following byte (spec section 4.2 step 2). -/
def sigIdx (s : Signal) (i : Nat) : Nat :=
  match s.byte_order with
  | .little_endian => s.start + i
  | .big_endian => invol (invol s.start + s.length - 1 - i)

/-- Extract a signal's raw bit field from a payload as an unsigned integer
(spec section 4.2 steps 2 and 3, before sign interpretation). -/
def extractRaw (p : List Nat) (s : Signal) : Nat :=
  natOfBits ((List.range s.length).map (fun i => bitAt p (sigIdx s i)))

/-- Two's-complement reinterpretation of an extracted unsigned value at the
declared bit width (spec section 4.2 step 3). -/
def toSigned (u : Nat) (length : Nat) : Int :=
  if u < 2 ^ (length - 1) then (u : Int) else (u : Int) - 2 ^ length

/-- The signed or unsigned raw integer a signal extracts from an unsigned
bit pattern. -/
def rawInt (s : Signal) (u : Nat) : Int :=
  if s.is_signed then toSigned u s.length else (u : Int)

/-- Unsigned bit pattern of a (range-checked) raw integer at the given
width. -/
def toUnsigned (r : Int) (length : Nat) : Nat :=
  if r < 0 then (r + 2 ^ length).toNat else r.toNat

/-- Round half away from zero, the spec's encode rounding (spec section
4.2, numeric semantics). -/
def roundHalfAway (q : Rat) : Int :=
  if 0 ≤ q then Int.floor (q + 1 / 2) else Int.ceil (q - 1 / 2)

/-- Whether a raw integer fits the signal's bit width for its signedness
(spec section 4.2, encode contract). -/
def rangeOk (s : Signal) (r : Int) : Bool :=
  if s.is_signed then
    decide (-(2 ^ (s.length - 1)) ≤ r) && decide (r < 2 ^ (s.length - 1))
  else
    decide (0 ≤ r) && decide (r < 2 ^ s.length)

/-- Decode-side value interpretation of one extracted raw pattern: sign
interpretation, then scaling if requested, with a choice label substituted
when one exists for the raw integer and choice decoding is on (spec
section 4.2 steps 3 to 5). -/
def decodeValue (s : Signal) (u : Nat) (decode_choices scaling : Bool) : Value :=
  let r := rawInt s u
  match (if decode_choices then alookup s.choices r else none) with
  | some lbl => .label lbl
  | none => if scaling then .num (r * s.scale + s.offset) else .num r

/-- Whether a signal is the multiplexor of its message. -/
def isMultiplexorSignal (s : Signal) : Bool :=
  s.mux = MuxRole.isMultiplexor

/-- Whether a signal is selected given the resolved multiplexor value:
plain signals and the multiplexor always are; a multiplexed signal only
when its tag equals the resolved value (spec section 4.2 step 1). -/
def includeSignal (sel : Option Nat) (s : Signal) : Bool :=
  match s.mux with
  | .isMultiplexed id => sel = some id
  | _ => true

/-- Decode-side multiplexor resolution: the raw, unscaled value of the
message's multiplexor signal, when one exists. -/
def muxSelector (m : Message) (p : List Nat) : Option Nat :=
  match m.signals.find? isMultiplexorSignal with
  | some s => some (extractRaw p s)
  | none => none

/-- `Message.decode` (spec section 4.2, decode contract): fail with a
`LengthError` when the payload is shorter than the declared byte length
(longer payloads are accepted); otherwise return the name-to-value mapping
of every signal whose multiplex condition matches, omitting multiplexed-out
signals. -/
def Message.decode (m : Message) (p : List Nat) (decode_choices scaling : Bool) :
    Except DbError (List (String × Value)) :=
  if p.length < m.byte_length then .error .lengthError
  else
    .ok ((m.signals.filter (includeSignal (muxSelector m p))).map
      (fun s => (s.name, decodeValue s (extractRaw p s) decode_choices scaling)))

/-- Encode-side resolution of one supplied value to a raw integer: a choice
label is reverse-looked-up in the value table (failing with
`UnknownChoiceError` when absent); a number is unscaled and rounded when
scaling is on, else rounded as the raw itself (spec sections 4.2 and
4.3). -/
def resolveRaw (s : Signal) (v : Value) (scaling : Bool) : Except DbError Int :=
  match v with
  | .label lbl =>
    match rlookup s.choices lbl with
    | some r => .ok r
    | none => .error .unknownChoiceError
  | .num q =>
    if scaling then .ok (roundHalfAway ((q - s.offset) / s.scale))
    else .ok (roundHalfAway q)

/-- Encode-side multiplexor resolution: the raw value the supplied mapping
assigns to the message's multiplexor signal, when one exists; its absence
is a `MissingSignalError`. -/
def resolveSelector (m : Message) (values : List (String × Value)) (scaling : Bool) :
    Except DbError (Option Nat) :=
  match m.signals.find? isMultiplexorSignal with
  | none => .ok none
  | some s =>
    match alookup values s.name with
    | none => .error (.missingSignalError s.name)
    | some v =>
      match resolveRaw s v scaling with
      | .error e => .error e
      | .ok r =>
        if rangeOk s r then .ok (some (toUnsigned r s.length))
        else .error .rangeError

/-- Walk the message's signals resolving each supplied value to its
unsigned bit pattern, validating the bit width (`RangeError`); a selected
signal without a supplied value is a `MissingSignalError`, and a
multiplexed-out signal without a value is skipped (spec section 4.2,
encode contract). -/
def resolveSignals (sel : Option Nat) (values : List (String × Value))
    (scaling : Bool) : List Signal → Except DbError (List (Signal × Nat))
  | [] => .ok []
  | s :: rest =>
    match alookup values s.name with
    | some v =>
      match resolveRaw s v scaling with
      | .error e => .error e
      | .ok r =>
        if rangeOk s r then
          match resolveSignals sel values scaling rest with
          | .error e => .error e
          | .ok tail => .ok ((s, toUnsigned r s.length) :: tail)
        else .error .rangeError
    | none =>
      if includeSignal sel s then .error (.missingSignalError s.name)
      else resolveSignals sel values scaling rest

/-- Write the bit pattern of one signal into a bit buffer at the positions
its byte order dictates. -/
def writeRaw (bits : List Bool) (s : Signal) (u : Nat) : List Bool :=
  (List.range s.length).foldl (fun bs i => bs.set (sigIdx s i) (u.testBit i)) bits

/-- Write every resolved signal in turn. -/
def encodeBits (pairs : List (Signal × Nat)) (bits : List Bool) : List Bool :=
  pairs.foldl (fun bs p => writeRaw bs p.1 p.2) bits

/-- Materialize byte `b` of a bit buffer. -/
def byteOfBits (bits : List Bool) (b : Nat) : Nat :=
  natOfBits ((List.range 8).map (fun i => bits.getD (8 * b + i) false))

/-- Materialize a bit buffer as `len` bytes. -/
def bitsToBytes (len : Nat) (bits : List Bool) : List Nat :=
  (List.range len).map (byteOfBits bits)

/-- `Message.encode` (spec section 4.2, encode contract): resolve the
multiplexor from the supplied values, resolve and range-check every
supplied signal, and write the bit patterns into a buffer of exactly
`byte_length` bytes whose unwritten bits are 1 when padding is requested
and 0 otherwise. -/
def Message.encode (m : Message) (values : List (String × Value))
    (scaling padding : Bool) : Except DbError (List Nat) :=
  match resolveSelector m values scaling with
  | .error e => .error e
  | .ok sel =>
    match resolveSignals sel values scaling m.signals with
    | .error e => .error e
    | .ok pairs =>
      .ok (bitsToBytes m.byte_length
        (encodeBits pairs (List.replicate (8 * m.byte_length) padding)))

/-- `File.encode_message`: resolve the frame id or name through the two
lookup tables (frame-id table first) and delegate to the resolved message's
`encode` with the given arguments. -/
def encode_message (f : File) (frame_id_or_name : FrameIdOrName)
    (data : List (String × Value)) (scaling padding : Bool) :
    Except DbError (List Nat) :=
  match resolveMessage f frame_id_or_name with
  | .error e => .error e
  | .ok m => m.encode data scaling padding

/-- `File.decode_message`: resolve the frame id or name through the two
lookup tables (frame-id table first) and delegate to the resolved message's
`decode` with the given arguments. -/
def decode_message (f : File) (frame_id_or_name : FrameIdOrName)
    (data : List Nat) (decode_choices scaling : Bool) :
    Except DbError (List (String × Value)) :=
  match resolveMessage f frame_id_or_name with
  | .error e => .error e
  | .ok m => m.decode data decode_choices scaling

/-! ## Well-formedness

Structural invariants a parser-produced schema satisfies (spec section 3):
every signal has positive length, fits inside the message's declared byte
length, has a non-zero scale and an injective value table; signal names are
unique within the message; and signal bit ranges do not overlap. -/

/-- Two signals occupy disjoint bit positions. -/
def SigDisjoint (a b : Signal) : Prop :=
  ∀ i < a.length, ∀ j < b.length, sigIdx a i ≠ sigIdx b j

instance (a b : Signal) : Decidable (SigDisjoint a b) := by
  unfold SigDisjoint; infer_instance

/-- Well-formedness of one signal relative to its message's byte length. -/
def SignalWF (byte_length : Nat) (s : Signal) : Prop :=
  1 ≤ s.length ∧
  (∀ i < s.length, sigIdx s i < 8 * byte_length) ∧
  s.scale ≠ 0 ∧
  (s.choices.map Prod.snd).Nodup

instance (n : Nat) (s : Signal) : Decidable (SignalWF n s) := by
  unfold SignalWF; infer_instance

/-- Two signals belong to different multiplex groups (and may therefore
overlap): both are multiplexed, under different multiplexor values. -/
def DifferentMuxGroups (a b : Signal) : Prop :=
  match a.mux, b.mux with
  | .isMultiplexed i, .isMultiplexed j => i ≠ j
  | _, _ => False

instance (a b : Signal) : Decidable (DifferentMuxGroups a b) := by
  unfold DifferentMuxGroups
  rcases a.mux <;> rcases b.mux <;> simp <;> infer_instance

/-- Well-formedness of a message's signal set: per-signal well-formedness,
unique signal names, and no bit overlap between signals of the same
multiplex group (spec section 3). -/
def MessageWF (m : Message) : Prop :=
  (∀ s ∈ m.signals, SignalWF m.byte_length s) ∧
  (m.signals.map Signal.name).Nodup ∧
  m.signals.Pairwise (fun a b => SigDisjoint a b ∨ DifferentMuxGroups a b)

instance (m : Message) : Decidable (MessageWF m) := by
  unfold MessageWF; infer_instance

/-- The multiplexor value an encode-side raw assignment selects: the raw
value assigned to the message's multiplexor signal, when one exists. -/
def encSel (m : Message) (rawOf : String → Nat) : Option Nat :=
  (m.signals.find? isMultiplexorSignal).map (fun s => rawOf s.name)

/-- The fully specified mapping obtained by decoding the raw assignment
`rawOf` signal-wise: one entry per selected signal, holding the decoded
(scaled, choice-substituted) value of its raw.  These are exactly the
mappings in the image of `decode`. -/
def imageValues (m : Message) (rawOf : String → Nat) : List (String × Value) :=
  (m.signals.filter (includeSignal (encSel m rawOf))).map
    (fun s => (s.name, decodeValue s (rawOf s.name) true true))

/-- Equality of `Except` results is decidable when both components are. -/
instance {ε α : Type} [DecidableEq ε] [DecidableEq α] :
    DecidableEq (Except ε α) := fun a b =>
  match a, b with
  | .ok x, .ok y =>
    if h : x = y then .isTrue (by rw [h])
    else .isFalse (fun hc => h (by cases hc; rfl))
  | .error x, .error y =>
    if h : x = y then .isTrue (by rw [h])
    else .isFalse (fun hc => h (by cases hc; rfl))
  | .ok _, .error _ => .isFalse (fun hc => Except.noConfusion hc)
  | .error _, .ok _ => .isFalse (fun hc => Except.noConfusion hc)

/-! ## Concrete fixtures used by witnesses and counterexamples -/

/-- A one-byte message with a single unsigned little-endian byte-wide
signal of scale 2: the counterexample signal for the encode/decode
round-trip claim. -/
def cexSignal : Signal :=
  { name := "S", start := 0, length := 8, byte_order := .little_endian,
    is_signed := false, scale := 2, offset := 0 }

/-- The message owning `cexSignal`. -/
def cexMessage : Message :=
  { frame_id := 3, name := "MCX", byte_length := 1, signals := [cexSignal] }

/-- A plain sample message used by facade witnesses. -/
def sampleMessageA : Message :=
  { frame_id := 1, name := "A", byte_length := 1 }

/-- A second sample message colliding with `sampleMessageA` on frame id. -/
def sampleMessageB : Message :=
  { frame_id := 1, name := "B", byte_length := 1 }

/-- A file holding `sampleMessageA`. -/
def sampleFile : File := (add_message {} sampleMessageA).1

/-- A sample parse result used by merge witnesses. -/
def sampleDatabase : Database :=
  { messages := [sampleMessageB], nodes := [{ name := "N1" }],
    buses := [{ name := "Bus1" }], version := some "v2",
    attribute_definitions := ["ad"], attribute_definition_defaults := ["add"] }

/-- A parser stub that always fails. -/
def failingParse : String → Except ParseError Database :=
  fun _ => .error .malformed

/-- A parser stub that always yields `sampleDatabase`. -/
def okParse : String → Except ParseError Database :=
  fun _ => .ok sampleDatabase

/-- Round-trip witness fixture: a two-bit little-endian multiplexor. -/
def witSignalM : Signal :=
  { name := "M", start := 0, length := 2, byte_order := .little_endian,
    is_signed := false, scale := 1, offset := 0, mux := .isMultiplexor }

/-- Round-trip witness fixture: a plain little-endian signal with scale and
offset. -/
def witSignalC : Signal :=
  { name := "C", start := 2, length := 4, byte_order := .little_endian,
    is_signed := false, scale := 1, offset := 3 }

/-- Round-trip witness fixture: a signed big-endian signal multiplexed
under value 0, sharing its bits with `witSignalB`. -/
def witSignalA : Signal :=
  { name := "A", start := 15, length := 8, byte_order := .big_endian,
    is_signed := true, scale := 2, offset := 5, mux := .isMultiplexed 0 }

/-- Round-trip witness fixture: an unsigned big-endian signal with a value
table, multiplexed under value 1, sharing its bits with `witSignalA`. -/
def witSignalB : Signal :=
  { name := "B", start := 15, length := 8, byte_order := .big_endian,
    is_signed := false, scale := 1, offset := 0,
    choices := [(0, "OFF"), (1, "ON")], mux := .isMultiplexed 1 }

/-- Round-trip witness fixture: a two-byte multiplexed message exercising
both byte orders, signedness, scaling and choices. -/
def witMessage : Message :=
  { frame_id := 7, name := "WIT", byte_length := 2,
    signals := [witSignalM, witSignalC, witSignalA, witSignalB] }

/-- Round-trip witness fixture: the raw assignment (multiplexor value 1
selects `witSignalB`). -/
def witRawOf : String → Nat :=
  fun n => if n = "M" then 1 else if n = "C" then 9 else 1

/-! ## Facade lemmas -/

theorem alookup_dictSet_self {α β : Type} [DecidableEq α]
    (l : List (α × β)) (k : α) (v : β) : alookup (dictSet l k v) k = some v := by
  simp [alookup, dictSet]

theorem add_message_fst (f : File) (m : Message) :
    (add_message f m).1 =
      { f with
          messages := f.messages ++ [m]
          name_to_message := dictSet f.name_to_message m.name m
          frame_id_to_message := dictSet f.frame_id_to_message m.frame_id m } := rfl

theorem add_message_lookup_frame (f : File) (m : Message) :
    get_message_by_frame_id (add_message f m).1 m.frame_id = .ok m := by
  simp [add_message, get_message_by_frame_id, alookup_dictSet_self]

theorem add_message_lookup_name (f : File) (m : Message) :
    get_message_by_name (add_message f m).1 m.name = .ok m := by
  simp [add_message, get_message_by_name, alookup_dictSet_self]

theorem add_messages_messages (l : List Message) (f : File) :
    (add_messages f l).1.messages = f.messages ++ l := by
  induction l generalizing f with
  | nil => simp [add_messages]
  | cons m rest ih =>
    simp [add_messages, ih, add_message]

/-! ## Claims about the facade -/

/-- C1: adding a message whose frame id or name is already present in the
lookup tables completes without raising (the model is total), emits a
non-fatal warning, and afterwards both lookups return the newly added
message — later wins. -/
theorem claim_C1_collision_later_wins (f : File) (m : Message)
    (h : (alookup f.frame_id_to_message m.frame_id).isSome = true ∨
         (alookup f.name_to_message m.name).isSome = true) :
    (add_message f m).2 ≠ [] ∧
    get_message_by_frame_id (add_message f m).1 m.frame_id = .ok m ∧
    get_message_by_name (add_message f m).1 m.name = .ok m := by
  refine ⟨?_, add_message_lookup_frame f m, add_message_lookup_name f m⟩
  rcases h with h | h <;> simp [add_message, h]

theorem claim_C1_collision_later_wins_witness :
    ((alookup sampleFile.frame_id_to_message sampleMessageB.frame_id).isSome = true ∨
      (alookup sampleFile.name_to_message sampleMessageB.name).isSome = true) ∧
    (add_message sampleFile sampleMessageB).2 ≠ [] ∧
    get_message_by_frame_id (add_message sampleFile sampleMessageB).1
      sampleMessageB.frame_id = .ok sampleMessageB ∧
    get_message_by_name (add_message sampleFile sampleMessageB).1
      sampleMessageB.name = .ok sampleMessageB :=
  ⟨by decide, claim_C1_collision_later_wins sampleFile sampleMessageB (by decide)⟩

/-- C3: looking up a frame id absent from the frame-id table fails with
`NotFoundError`, and any message the lookup does return is exactly the
table entry for that id, never a substitute. -/
theorem claim_C3_frame_id_not_found (f : File) (fid : Nat) :
    (alookup f.frame_id_to_message fid = none →
      get_message_by_frame_id f fid = .error .notFoundError) ∧
    (∀ m, get_message_by_frame_id f fid = .ok m →
      alookup f.frame_id_to_message fid = some m) := by
  constructor
  · intro h; simp [get_message_by_frame_id, h]
  · intro m h
    unfold get_message_by_frame_id at h
    rcases hl : alookup f.frame_id_to_message fid with _ | m' <;> rw [hl] at h
    · cases h
    · cases h; rfl

theorem claim_C3_frame_id_not_found_witness :
    get_message_by_frame_id sampleFile 5 = .error .notFoundError :=
  (claim_C3_frame_id_not_found sampleFile 5).1 (by decide)

/-- C4: when DBC parsing fails, `add_dbc_string` propagates the failure and
returns the database state exactly as it was — no partial mutation of
messages, nodes, buses, version, attribute definitions or lookup tables. -/
theorem claim_C4_parse_failure_no_mutation
    (parse : String → Except ParseError Database) (f : File) (s : String)
    (e : ParseError) (h : parse s = .error e) :
    add_dbc_string parse f s = (f, [], some e) := by
  simp [add_dbc_string, h]

theorem claim_C4_parse_failure_no_mutation_witness :
    add_dbc_string failingParse sampleFile "x" =
      (sampleFile, [], some ParseError.malformed) :=
  claim_C4_parse_failure_no_mutation failingParse sampleFile "x" .malformed rfl

/-- C6: on a successful parse, `add_dbc_string` appends the parse result's
messages to the existing message sequence in parser order. -/
theorem claim_C6_messages_append
    (parse : String → Except ParseError Database) (f : File) (s : String)
    (db : Database) (h : parse s = .ok db) :
    (add_dbc_string parse f s).1.messages = f.messages ++ db.messages := by
  simp [add_dbc_string, h, replaceParsedFields, add_messages_messages]

theorem claim_C6_messages_append_witness :
    (add_dbc_string okParse sampleFile "x").1.messages =
      sampleFile.messages ++ sampleDatabase.messages :=
  claim_C6_messages_append okParse sampleFile "x" sampleDatabase rfl

/-- C7: `get_node_by_name` returns a node of the requested name whenever
one exists and fails with `NotFoundError` otherwise; likewise
`get_bus_by_name` for buses. -/
theorem claim_C7_node_bus_by_name (f : File) (name : String) :
    ((∃ nd ∈ f.nodes, nd.name = name) →
      ∃ nd, get_node_by_name f name = .ok nd ∧ nd.name = name ∧ nd ∈ f.nodes) ∧
    ((∀ nd ∈ f.nodes, nd.name ≠ name) →
      get_node_by_name f name = .error .notFoundError) ∧
    ((∃ b ∈ f.buses, b.name = name) →
      ∃ b, get_bus_by_name f name = .ok b ∧ b.name = name ∧ b ∈ f.buses) ∧
    ((∀ b ∈ f.buses, b.name ≠ name) →
      get_bus_by_name f name = .error .notFoundError) := by
  refine ⟨?_, ?_, ?_, ?_⟩
  · intro h
    have hs : (f.nodes.find? (fun nd => nd.name = name)).isSome := by
      rw [List.find?_isSome]
      rcases h with ⟨nd, hmem, hname⟩
      exact ⟨nd, hmem, by simp [hname]⟩
    rcases hfind : f.nodes.find? (fun nd => nd.name = name) with _ | nd
    · rw [hfind] at hs; cases hs
    · refine ⟨nd, by simp [get_node_by_name, hfind], ?_, List.mem_of_find?_eq_some hfind⟩
      have := List.find?_some hfind
      simpa using this
  · intro h
    have hnone : f.nodes.find? (fun nd => nd.name = name) = none := by
      rw [List.find?_eq_none]
      intro nd hmem
      simpa using h nd hmem
    simp [get_node_by_name, hnone]
  · intro h
    have hs : (f.buses.find? (fun b => b.name = name)).isSome := by
      rw [List.find?_isSome]
      rcases h with ⟨b, hmem, hname⟩
      exact ⟨b, hmem, by simp [hname]⟩
    rcases hfind : f.buses.find? (fun b => b.name = name) with _ | b
    · rw [hfind] at hs; cases hs
    · refine ⟨b, by simp [get_bus_by_name, hfind], ?_, List.mem_of_find?_eq_some hfind⟩
      have := List.find?_some hfind
      simpa using this
  · intro h
    have hnone : f.buses.find? (fun b => b.name = name) = none := by
      rw [List.find?_eq_none]
      intro b hmem
      simpa using h b hmem
    simp [get_bus_by_name, hnone]

theorem claim_C7_node_bus_by_name_witness :
    (∃ nd, get_node_by_name (add_dbc_string okParse sampleFile "x").1 "N1" = .ok nd ∧
      nd.name = "N1" ∧ nd ∈ (add_dbc_string okParse sampleFile "x").1.nodes) ∧
    get_node_by_name (add_dbc_string okParse sampleFile "x").1 "Z" =
      .error .notFoundError :=
  ⟨(claim_C7_node_bus_by_name (add_dbc_string okParse sampleFile "x").1 "N1").1
      ⟨{ name := "N1" }, by decide, rfl⟩,
   (claim_C7_node_bus_by_name (add_dbc_string okParse sampleFile "x").1 "Z").2.1
      (by decide)⟩

/-- C8: `add_message` appends to the message list unconditionally: the list
keeps every earlier message, grows by exactly one, while both lookup tables
resolve to the newly added message. -/
theorem claim_C8_append_unconditional (f : File) (m : Message) :
    (add_message f m).1.messages = f.messages ++ [m] ∧
    (add_message f m).1.messages.length = f.messages.length + 1 ∧
    get_message_by_frame_id (add_message f m).1 m.frame_id = .ok m ∧
    get_message_by_name (add_message f m).1 m.name = .ok m := by
  refine ⟨rfl, by simp [add_message], add_message_lookup_frame f m,
    add_message_lookup_name f m⟩

/-- C9: after a successful `add_dbc_string` (and likewise `add_kcd_string`
and `add_sym_string`), nodes, buses, version and attribute data are exactly
those of the latest parse result — replaced, not merged — while messages
from earlier parses are retained and the new ones appended. -/
theorem claim_C9_replace_not_merge
    (parse : String → Except ParseError Database) (f : File) (s : String)
    (db : Database) (h : parse s = .ok db) :
    ((add_dbc_string parse f s).1.nodes = db.nodes ∧
     (add_dbc_string parse f s).1.buses = db.buses ∧
     (add_dbc_string parse f s).1.version = db.version ∧
     (add_dbc_string parse f s).1.attribute_definitions = db.attribute_definitions ∧
     (add_dbc_string parse f s).1.attribute_definition_defaults =
       db.attribute_definition_defaults ∧
     (add_dbc_string parse f s).1.messages = f.messages ++ db.messages) ∧
    ((add_kcd_string parse f s).1.nodes = db.nodes ∧
     (add_kcd_string parse f s).1.buses = db.buses ∧
     (add_kcd_string parse f s).1.version = db.version ∧
     (add_kcd_string parse f s).1.attribute_definitions = db.attribute_definitions ∧
     (add_kcd_string parse f s).1.attribute_definition_defaults =
       db.attribute_definition_defaults ∧
     (add_kcd_string parse f s).1.messages = f.messages ++ db.messages) ∧
    ((add_sym_string parse f s).1.nodes = db.nodes ∧
     (add_sym_string parse f s).1.buses = db.buses ∧
     (add_sym_string parse f s).1.version = db.version ∧
     (add_sym_string parse f s).1.attribute_definitions = db.attribute_definitions ∧
     (add_sym_string parse f s).1.attribute_definition_defaults =
       db.attribute_definition_defaults ∧
     (add_sym_string parse f s).1.messages = f.messages ++ db.messages) := by
  refine ⟨?_, ?_, ?_⟩ <;>
    simp [add_dbc_string, add_kcd_string, add_sym_string, h,
      replaceParsedFields, add_messages_messages]

theorem claim_C9_replace_not_merge_witness :
    (add_dbc_string okParse sampleFile "x").1.nodes = sampleDatabase.nodes ∧
    (add_dbc_string okParse sampleFile "x").1.version = sampleDatabase.version ∧
    (add_dbc_string okParse sampleFile "x").1.messages =
      sampleFile.messages ++ sampleDatabase.messages :=
  ⟨(claim_C9_replace_not_merge okParse sampleFile "x" sampleDatabase rfl).1.1,
   (claim_C9_replace_not_merge okParse sampleFile "x" sampleDatabase rfl).1.2.2.1,
   (claim_C9_replace_not_merge okParse sampleFile "x" sampleDatabase rfl).1.2.2.2.2.2⟩

/-! ## Bit-level lemmas -/

theorem natOfBits_testBit (l : List Bool) (j : Nat) :
    (natOfBits l).testBit j = l.getD j false := by
  induction l generalizing j with
  | nil => simp [natOfBits]
  | cons b bs ih =>
    cases j with
    | zero =>
      rcases b <;> simp [natOfBits, Nat.testBit_zero, Nat.add_mul_mod_self_left]
    | succ j =>
      have hdiv : (b.toNat + 2 * natOfBits bs) / 2 = natOfBits bs := by
        rcases b <;> simp only [Bool.toNat_false, Bool.toNat_true] <;> omega
      simp [natOfBits, Nat.testBit_succ, hdiv, ih]

theorem natOfBits_map_testBit (u L : Nat) :
    natOfBits ((List.range L).map u.testBit) = u % 2 ^ L := by
  induction L generalizing u with
  | zero => simp [natOfBits, Nat.mod_one]
  | succ L ih =>
    rw [List.range_succ_eq_map, List.map_cons, List.map_map]
    have hmap : (List.range L).map (u.testBit ∘ Nat.succ) =
        (List.range L).map (u / 2).testBit := by
      refine List.map_congr_left (fun i _ => ?_)
      simp [Function.comp, Nat.testBit_succ]
    rw [hmap, natOfBits, ih]
    have h2 : 2 ^ (L + 1) = 2 * 2 ^ L := by ring
    rw [h2, Nat.mod_mul]
    rcases Nat.mod_two_eq_zero_or_one u with h | h <;>
      simp [Nat.testBit_zero, h]

theorem length_bitsToBytes (len : Nat) (bits : List Bool) :
    (bitsToBytes len bits).length = len := by
  simp [bitsToBytes]

theorem bitAt_bitsToBytes (len : Nat) (bits : List Bool) (n : Nat)
    (h : n < 8 * len) :
    bitAt (bitsToBytes len bits) n = bits.getD n false := by
  have hdiv : n / 8 < len := by omega
  have hbyte : (bitsToBytes len bits).getD (n / 8) 0 = byteOfBits bits (n / 8) := by
    simp [bitsToBytes, List.getD_eq_getElem?_getD, List.getElem?_map,
      List.getElem?_range hdiv]
  have hmod : n % 8 < 8 := Nat.mod_lt _ (by omega)
  rw [bitAt, hbyte, byteOfBits, natOfBits_testBit,
    List.getD_eq_getElem?_getD, List.getElem?_map, List.getElem?_range hmod]
  simp [Nat.div_add_mod]

/-! ## Write lemmas -/

theorem foldl_set_length (ps : List (Nat × Bool)) (bits : List Bool) :
    (ps.foldl (fun bs p => bs.set p.1 p.2) bits).length = bits.length := by
  induction ps generalizing bits with
  | nil => rfl
  | cons p ps ih => simp [List.foldl_cons, ih]

theorem foldl_set_getD_not_mem (ps : List (Nat × Bool)) (bits : List Bool)
    (n : Nat) (h : ∀ p ∈ ps, p.1 ≠ n) :
    (ps.foldl (fun bs p => bs.set p.1 p.2) bits).getD n false = bits.getD n false := by
  induction ps generalizing bits with
  | nil => rfl
  | cons p ps ih =>
    rw [List.foldl_cons, ih _ (fun q hq => h q (List.mem_cons_of_mem _ hq))]
    simp [List.getD_eq_getElem?_getD,
      List.getElem?_set_ne (h p (List.mem_cons_self _ _))]

theorem foldl_set_getD_mem (ps : List (Nat × Bool)) (bits : List Bool)
    (n : Nat) (v : Bool) (hmem : (n, v) ∈ ps)
    (hnd : (ps.map Prod.fst).Nodup) (hlen : n < bits.length) :
    (ps.foldl (fun bs p => bs.set p.1 p.2) bits).getD n false = v := by
  induction ps generalizing bits with
  | nil => cases hmem
  | cons p ps ih =>
    rw [List.map_cons, List.nodup_cons] at hnd
    rcases List.mem_cons.mp hmem with heq | htail
    · subst heq
      have hn : n ∉ ps.map Prod.fst := by simpa using hnd.1
      rw [List.foldl_cons,
        foldl_set_getD_not_mem ps _ n
          (fun q hq hq1 => hn (hq1 ▸ List.mem_map_of_mem Prod.fst hq))]
      simp [List.getD_eq_getElem?_getD, List.getElem?_set_self hlen]
    · rw [List.foldl_cons]
      exact ih _ htail hnd.2 (by simpa using hlen)

theorem invol_invol (n : Nat) : invol (invol n) = n := by
  unfold invol
  omega

theorem invol_inj {a b : Nat} (h : invol a = invol b) : a = b := by
  have := congrArg invol h
  rwa [invol_invol, invol_invol] at this

theorem sigIdx_inj (s : Signal) {i j : Nat} (hi : i < s.length)
    (hj : j < s.length) (h : sigIdx s i = sigIdx s j) : i = j := by
  unfold sigIdx at h
  rcases hbo : s.byte_order with _ | _ <;> simp only [hbo] at h
  · have := invol_inj h
    omega
  · omega

theorem writeRaw_eq_foldl (bits : List Bool) (s : Signal) (u : Nat) :
    writeRaw bits s u =
      ((List.range s.length).map (fun i => (sigIdx s i, u.testBit i))).foldl
        (fun bs p => bs.set p.1 p.2) bits := by
  rw [writeRaw, List.foldl_map]

theorem length_writeRaw (bits : List Bool) (s : Signal) (u : Nat) :
    (writeRaw bits s u).length = bits.length := by
  rw [writeRaw_eq_foldl, foldl_set_length]

theorem writeRaw_getD_ne (bits : List Bool) (s : Signal) (u : Nat) (n : Nat)
    (h : ∀ i < s.length, sigIdx s i ≠ n) :
    (writeRaw bits s u).getD n false = bits.getD n false := by
  rw [writeRaw_eq_foldl]
  refine foldl_set_getD_not_mem _ _ _ (fun p hp => ?_)
  rcases List.mem_map.mp hp with ⟨i, hi, rfl⟩
  exact h i (List.mem_range.mp hi)

theorem writeRaw_getD (bits : List Bool) (s : Signal) (u : Nat) (i : Nat)
    (hi : i < s.length) (hfit : ∀ j < s.length, sigIdx s j < bits.length) :
    (writeRaw bits s u).getD (sigIdx s i) false = u.testBit i := by
  rw [writeRaw_eq_foldl]
  refine foldl_set_getD_mem _ _ _ _ ?_ ?_ (hfit i hi)
  · exact List.mem_map.mpr ⟨i, List.mem_range.mpr hi, rfl⟩
  · rw [List.map_map]
    refine List.Nodup.map_on ?_ (List.nodup_range _)
    intro a ha b hb hab
    exact sigIdx_inj s (List.mem_range.mp ha) (List.mem_range.mp hb) (by simpa using hab)

theorem length_encodeBits (pairs : List (Signal × Nat)) (bits : List Bool) :
    (encodeBits pairs bits).length = bits.length := by
  induction pairs generalizing bits with
  | nil => rfl
  | cons p ps ih =>
    rw [encodeBits, List.foldl_cons, ← encodeBits, ih, length_writeRaw]

theorem encodeBits_getD_untouched (pairs : List (Signal × Nat)) (bits : List Bool)
    (n : Nat) (h : ∀ p ∈ pairs, ∀ i < p.1.length, sigIdx p.1 i ≠ n) :
    (encodeBits pairs bits).getD n false = bits.getD n false := by
  induction pairs generalizing bits with
  | nil => rfl
  | cons p ps ih =>
    rw [encodeBits, List.foldl_cons, ← encodeBits,
      ih _ (fun q hq => h q (List.mem_cons_of_mem _ hq)),
      writeRaw_getD_ne _ _ _ _ (h p (List.mem_cons_self _ _))]

/-! ## Extraction after disjoint writes -/

theorem extractRaw_congr (p q : List Nat) (s : Signal)
    (h : ∀ i < s.length, bitAt p (sigIdx s i) = bitAt q (sigIdx s i)) :
    extractRaw p s = extractRaw q s := by
  unfold extractRaw
  congr 1
  exact List.map_congr_left (fun i hi => h i (List.mem_range.mp hi))

/-- Reading one written signal back out of the byte image of the buffer:
the own write is undisturbed by later writes of bit-disjoint signals. -/
theorem encodeBits_extract (len : Nat) (pairs : List (Signal × Nat))
    (bits : List Bool) (hlen : bits.length = 8 * len)
    (hpw : pairs.Pairwise (fun a b => SigDisjoint a.1 b.1))
    (hfit : ∀ q ∈ pairs, ∀ i < q.1.length, sigIdx q.1 i < 8 * len)
    (s : Signal) (u : Nat) (hmem : (s, u) ∈ pairs) (hu : u < 2 ^ s.length) :
    extractRaw (bitsToBytes len (encodeBits pairs bits)) s = u := by
  induction pairs generalizing bits with
  | nil => cases hmem
  | cons q rest ih =>
    rw [List.pairwise_cons] at hpw
    rw [encodeBits, List.foldl_cons, ← encodeBits]
    rcases List.mem_cons.mp hmem with heq | htail
    · have hq : q = (s, u) := heq.symm
      subst hq
      have hbits : ∀ i < s.length,
          bitAt (bitsToBytes len (encodeBits rest (writeRaw bits s u))) (sigIdx s i) =
            u.testBit i := by
        intro i hi
        rw [bitAt_bitsToBytes len _ _ (hfit (s, u) (List.mem_cons_self _ _) i hi),
          encodeBits_getD_untouched, writeRaw_getD]
        · exact hi
        · intro j hj
          rw [hlen]
          exact hfit (s, u) (List.mem_cons_self _ _) j hj
        · intro r hr j hj
          exact fun hcontra => hpw.1 r hr i hi j hj hcontra.symm
      have : extractRaw (bitsToBytes len (encodeBits rest (writeRaw bits s u))) s =
          natOfBits ((List.range s.length).map u.testBit) := by
        unfold extractRaw
        congr 1
        exact List.map_congr_left (fun i hi => hbits i (List.mem_range.mp hi))
      rw [this, natOfBits_map_testBit, Nat.mod_eq_of_lt hu]
    · exact ih (writeRaw bits q.1 q.2) (by rw [length_writeRaw]; exact hlen)
        hpw.2 (fun r hr => hfit r (List.mem_cons_of_mem _ hr)) htail

/-! ## Value-level round-trip lemmas -/

theorem roundHalfAway_intCast (r : Int) : roundHalfAway (r : Rat) = r := by
  unfold roundHalfAway
  rcases le_or_lt 0 (r : Rat) with h | h
  · rw [if_pos h]
    have : ((r : Rat) + 1 / 2) = (r : Rat) + 1 / 2 := rfl
    rw [Int.floor_int_add]
    norm_num
  · rw [if_neg (not_le.mpr h)]
    rw [show ((r : Rat) - 1 / 2) = (-(1 / 2) + (r : Rat)) by ring, Int.ceil_add_int]
    norm_num

theorem toUnsigned_rawInt (s : Signal) (u : Nat) (hu : u < 2 ^ s.length) :
    toUnsigned (rawInt s u) s.length = u := by
  unfold rawInt toSigned toUnsigned
  rcases s.is_signed with _ | _
  · simp only [Bool.false_eq_true, if_false]
    rw [if_neg (not_lt.mpr (Int.natCast_nonneg u))]
    exact Int.toNat_natCast u
  · simp only [if_true]
    by_cases hhalf : u < 2 ^ (s.length - 1)
    · rw [if_pos hhalf, if_neg (not_lt.mpr (Int.natCast_nonneg u))]
      exact Int.toNat_natCast u
    · rw [if_neg hhalf]
      have h2 : ((u : Int) - 2 ^ s.length) < 0 := by
        have : (u : Int) < 2 ^ s.length := by exact_mod_cast hu
        omega
      rw [if_pos h2]
      omega

theorem rangeOk_rawInt (s : Signal) (u : Nat) (hu : u < 2 ^ s.length)
    (hL : 1 ≤ s.length) : rangeOk s (rawInt s u) = true := by
  unfold rangeOk rawInt toSigned
  obtain ⟨L, hLe⟩ : ∃ L, s.length = L + 1 := ⟨s.length - 1, by omega⟩
  rcases s.is_signed with _ | _
  · simp only [Bool.false_eq_true, if_false, Bool.and_eq_true, decide_eq_true_eq]
    constructor
    · positivity
    · exact_mod_cast hu
  · simp only [if_true, Bool.and_eq_true, decide_eq_true_eq]
    rw [hLe] at hu ⊢
    simp only [Nat.add_sub_cancel]
    have hcast : (u : Int) < 2 ^ (L + 1) := by exact_mod_cast hu
    have hpow : (2 : Int) ^ (L + 1) = 2 * 2 ^ L := by ring
    by_cases hhalf : u < 2 ^ L
    · have hcast2 : (u : Int) < 2 ^ L := by exact_mod_cast hhalf
      rw [if_pos (by exact_mod_cast hhalf)]
      constructor
      · have : (0 : Int) ≤ u := by positivity
        omega
      · exact hcast2
    · have hcast2 : (2 : Int) ^ L ≤ (u : Int) := by
        exact_mod_cast Nat.le_of_not_lt hhalf
      rw [if_neg (by exact_mod_cast hhalf)]
      omega

theorem alookup_mem {α β : Type} [DecidableEq α] {l : List (α × β)} {k : α}
    {v : β} (h : alookup l k = some v) : (k, v) ∈ l := by
  induction l with
  | nil => cases h
  | cons p ps ih =>
    unfold alookup at h
    by_cases hk : p.1 = k
    · rw [if_pos hk] at h
      cases h
      rw [← hk]
      simp
    · rw [if_neg hk] at h
      exact List.mem_cons_of_mem _ (ih h)

theorem rlookup_of_mem_nodup {α β : Type} [DecidableEq β] {l : List (α × β)}
    {k : α} {v : β} (hmem : (k, v) ∈ l) (hnd : (l.map Prod.snd).Nodup) :
    rlookup l v = some k := by
  induction l with
  | nil => cases hmem
  | cons p ps ih =>
    rw [List.map_cons, List.nodup_cons] at hnd
    rcases List.mem_cons.mp hmem with heq | htail
    · rw [← heq]
      simp [rlookup]
    · unfold rlookup
      rw [if_neg, ih htail hnd.2]
      intro hv
      exact hnd.1 (hv ▸ List.mem_map_of_mem Prod.snd htail)

/-- Per-signal round trip: resolving the decoded image of an in-range raw
value recovers exactly that raw value, within range. -/
theorem resolveRaw_decodeValue (s : Signal) (u : Nat) (hscale : s.scale ≠ 0)
    (hnd : (s.choices.map Prod.snd).Nodup) :
    resolveRaw s (decodeValue s u true true) true = .ok (rawInt s u) := by
  unfold decodeValue
  simp only [if_true]
  rcases hch : alookup s.choices (rawInt s u) with _ | lbl
  · simp only [resolveRaw, if_true]
    have harg : ((rawInt s u : Rat) * s.scale + s.offset - s.offset) / s.scale =
        (rawInt s u : Rat) := by
      rw [add_sub_cancel_right, mul_div_cancel_right₀ _ hscale]
    rw [harg, roundHalfAway_intCast]
  · simp only [resolveRaw]
    rw [rlookup_of_mem_nodup (alookup_mem hch) hnd]

/-! ## Message-level round-trip lemmas -/

theorem alookup_image_not_mem (l : List Signal) (g : Signal → Bool)
    (h : Signal → Value) (name : String) (hn : name ∉ l.map Signal.name) :
    alookup ((l.filter g).map (fun t => (t.name, h t))) name = none := by
  induction l with
  | nil => rfl
  | cons t rest ih =>
    rw [List.map_cons, List.mem_cons, not_or] at hn
    by_cases hg : g t
    · rw [List.filter_cons_of_pos hg, List.map_cons]
      unfold alookup
      rw [if_neg (fun hEq => hn.1 hEq.symm)]
      exact ih hn.2
    · rw [List.filter_cons_of_neg (by simpa using hg)]
      exact ih hn.2

theorem alookup_image (l : List Signal) (g : Signal → Bool) (h : Signal → Value)
    (hnd : (l.map Signal.name).Nodup) (s : Signal) (hs : s ∈ l) :
    alookup ((l.filter g).map (fun t => (t.name, h t))) s.name =
      if g s then some (h s) else none := by
  induction l with
  | nil => cases hs
  | cons t rest ih =>
    rw [List.map_cons, List.nodup_cons] at hnd
    rcases List.mem_cons.mp hs with rfl | htail
    · by_cases hg : g s
      · rw [List.filter_cons_of_pos hg, List.map_cons, if_pos hg]
        unfold alookup
        rw [if_pos rfl]
      · rw [List.filter_cons_of_neg (by simpa using hg), if_neg hg]
        exact alookup_image_not_mem rest g h s.name hnd.1
    · have hne : t.name ≠ s.name :=
        fun hEq => hnd.1 (hEq ▸ List.mem_map_of_mem Signal.name htail)
      by_cases hg : g t
      · rw [List.filter_cons_of_pos hg, List.map_cons]
        unfold alookup
        rw [if_neg hne]
        exact ih hnd.2 htail
      · rw [List.filter_cons_of_neg (by simpa using hg)]
        exact ih hnd.2 htail

theorem alookup_imageValues (m : Message) (rawOf : String → Nat)
    (hnd : (m.signals.map Signal.name).Nodup) (s : Signal) (hs : s ∈ m.signals) :
    alookup (imageValues m rawOf) s.name =
      if includeSignal (encSel m rawOf) s then
        some (decodeValue s (rawOf s.name) true true)
      else none :=
  alookup_image m.signals (includeSignal (encSel m rawOf))
    (fun t => decodeValue t (rawOf t.name) true true) hnd s hs

theorem filter_pairwise_disjoint (l : List Signal) (sel : Option Nat)
    (hpw : l.Pairwise (fun a b => SigDisjoint a b ∨ DifferentMuxGroups a b)) :
    (l.filter (includeSignal sel)).Pairwise SigDisjoint := by
  refine (hpw.filter (includeSignal sel)).imp_of_mem ?_
  intro a b ha hb hab
  rcases hab with h | h
  · exact h
  · exfalso
    have hia : includeSignal sel a = true := List.of_mem_filter ha
    have hib : includeSignal sel b = true := List.of_mem_filter hb
    unfold DifferentMuxGroups at h
    unfold includeSignal at hia hib
    rcases hma : a.mux with _ | _ | i <;> rw [hma] at h hia <;>
      rcases hmb : b.mux with _ | _ | j <;> rw [hmb] at h hib <;>
      try exact h
    have h1 : sel = some i := of_decide_eq_true hia
    have h2 : sel = some j := of_decide_eq_true hib
    exact h (by rw [h1] at h2; exact (Option.some.inj h2))

theorem resolveSignals_spec (sel : Option Nat) (values : List (String × Value))
    (rawOf : String → Nat) (l : List Signal)
    (hlk : ∀ s ∈ l, alookup values s.name =
      if includeSignal sel s then some (decodeValue s (rawOf s.name) true true)
      else none)
    (hgood : ∀ s ∈ l, rawOf s.name < 2 ^ s.length ∧ 1 ≤ s.length ∧
      s.scale ≠ 0 ∧ (s.choices.map Prod.snd).Nodup) :
    resolveSignals sel values true l =
      .ok ((l.filter (includeSignal sel)).map (fun s => (s, rawOf s.name))) := by
  induction l with
  | nil => rfl
  | cons s rest ih =>
    have hs := hlk s (List.mem_cons_self _ _)
    obtain ⟨hu, hL, hscale, hnd⟩ := hgood s (List.mem_cons_self _ _)
    have htail : resolveSignals sel values true rest =
        .ok ((rest.filter (includeSignal sel)).map (fun t => (t, rawOf t.name))) :=
      ih (fun t ht => hlk t (List.mem_cons_of_mem _ ht))
        (fun t ht => hgood t (List.mem_cons_of_mem _ ht))
    by_cases hinc : includeSignal sel s
    · rw [if_pos hinc] at hs
      unfold resolveSignals
      simp only [hs, resolveRaw_decodeValue s _ hscale hnd,
        rangeOk_rawInt s _ hu hL, htail, toUnsigned_rawInt s _ hu,
        List.filter_cons_of_pos hinc, List.map_cons, if_true]
    · rw [if_neg hinc] at hs
      unfold resolveSignals
      simp only [hs]
      rw [if_neg hinc, htail, List.filter_cons_of_neg (by simpa using hinc)]

theorem resolveSelector_spec (m : Message) (rawOf : String → Nat)
    (hnd : (m.signals.map Signal.name).Nodup)
    (hgood : ∀ s ∈ m.signals, rawOf s.name < 2 ^ s.length ∧ 1 ≤ s.length ∧
      s.scale ≠ 0 ∧ (s.choices.map Prod.snd).Nodup) :
    resolveSelector m (imageValues m rawOf) true = .ok (encSel m rawOf) := by
  unfold resolveSelector
  rcases hf : m.signals.find? isMultiplexorSignal with _ | s
  · simp [encSel, hf]
  · have hsmem : s ∈ m.signals := List.mem_of_find?_eq_some hf
    have hsmux : isMultiplexorSignal s = true := List.find?_some hf
    have hinc : includeSignal (encSel m rawOf) s = true := by
      unfold isMultiplexorSignal at hsmux
      unfold includeSignal
      rw [of_decide_eq_true hsmux]
    have hlk := alookup_imageValues m rawOf hnd s hsmem
    rw [if_pos hinc] at hlk
    obtain ⟨hu, hL, hscale, hnds⟩ := hgood s hsmem
    simp only [hlk, resolveRaw_decodeValue s _ hscale hnds,
      rangeOk_rawInt s _ hu hL, toUnsigned_rawInt s _ hu, if_true]
    simp [encSel, hf]

/-- C2 (amended): for a well-formed message and any in-range raw
assignment, encoding the fully specified mapping of decoded values (the
image of the raws under decode, i.e. the exactly representable values)
succeeds, and decoding the produced payload returns exactly that mapping
(scaling on, choices on). -/
theorem claim_C2_roundtrip_image (m : Message) (rawOf : String → Nat)
    (hwf : MessageWF m)
    (hraw : ∀ s ∈ m.signals, rawOf s.name < 2 ^ s.length) :
    ∃ p, m.encode (imageValues m rawOf) true false = .ok p ∧
      m.decode p true true = .ok (imageValues m rawOf) := by
  obtain ⟨hsw, hnd, hpw⟩ := hwf
  have hgood : ∀ s ∈ m.signals, rawOf s.name < 2 ^ s.length ∧ 1 ≤ s.length ∧
      s.scale ≠ 0 ∧ (s.choices.map Prod.snd).Nodup := by
    intro s hs
    obtain ⟨h1, _, h3, h4⟩ := hsw s hs
    exact ⟨hraw s hs, h1, h3, h4⟩
  have hsel_spec := resolveSelector_spec m rawOf hnd hgood
  have hsig_spec := resolveSignals_spec (encSel m rawOf) (imageValues m rawOf)
    rawOf m.signals (fun s hs => alookup_imageValues m rawOf hnd s hs) hgood
  set sel := encSel m rawOf with hsel
  set pairs := (m.signals.filter (includeSignal sel)).map
    (fun s => (s, rawOf s.name)) with hpairs
  set p := bitsToBytes m.byte_length
    (encodeBits pairs (List.replicate (8 * m.byte_length) false)) with hp
  have hplen : p.length = m.byte_length := by
    rw [hp]; exact length_bitsToBytes _ _
  have hpw2 : pairs.Pairwise (fun a b => SigDisjoint a.1 b.1) := by
    rw [hpairs, List.pairwise_map]
    exact filter_pairwise_disjoint m.signals sel hpw
  have hfit : ∀ q ∈ pairs, ∀ i < q.1.length, sigIdx q.1 i < 8 * m.byte_length := by
    intro q hq i hi
    rcases List.mem_map.mp hq with ⟨t, ht, rfl⟩
    exact (hsw t (List.mem_of_mem_filter ht)).2.1 i hi
  have hextract : ∀ s ∈ m.signals.filter (includeSignal sel),
      extractRaw p s = rawOf s.name := by
    intro s hs
    exact encodeBits_extract m.byte_length pairs _ (by simp) hpw2 hfit s
      (rawOf s.name) (List.mem_map.mpr ⟨s, hs, rfl⟩)
      (hraw s (List.mem_of_mem_filter hs))
  have hmux : muxSelector m p = sel := by
    unfold muxSelector
    rcases hf : m.signals.find? isMultiplexorSignal with _ | t
    · simp [hsel, encSel, hf]
    · have htm : t ∈ m.signals := List.mem_of_find?_eq_some hf
      have htmux : isMultiplexorSignal t = true := List.find?_some hf
      have hinct : includeSignal sel t = true := by
        unfold isMultiplexorSignal at htmux
        unfold includeSignal
        rw [of_decide_eq_true htmux]
      simp [hextract t (List.mem_filter.mpr ⟨htm, hinct⟩), hsel, encSel, hf]
  refine ⟨p, ?_, ?_⟩
  · unfold Message.encode
    simp only [hsel_spec, hsig_spec]
  · unfold Message.decode
    rw [if_neg (by simp [hplen]), hmux]
    unfold imageValues
    rw [← hsel]
    congr 1
    refine List.map_congr_left ?_
    intro s hs
    rw [hextract s hs]

theorem cex_roundHalfAway :
    roundHalfAway ((3 - cexSignal.offset) / cexSignal.scale) = 2 := by
  unfold roundHalfAway
  rw [show ((3 : Rat) - cexSignal.offset) / cexSignal.scale = 3 / 2 by
    norm_num [cexSignal]]
  rw [if_pos (by norm_num)]
  rw [show (3 : Rat) / 2 + 1 / 2 = ((2 : Int) : Rat) by norm_num]
  rw [Int.floor_intCast]

theorem cex_resolveRaw : resolveRaw cexSignal (Value.num 3) true = .ok 2 := by
  rw [show resolveRaw cexSignal (Value.num 3) true =
    .ok (roundHalfAway ((3 - cexSignal.offset) / cexSignal.scale)) from rfl,
    cex_roundHalfAway]

theorem cex_resolveSignals :
    resolveSignals none [("S", Value.num 3)] true cexMessage.signals =
      .ok [(cexSignal, 2)] := by
  have h2 : resolveSignals none [("S", Value.num 3)] true cexMessage.signals =
      match resolveRaw cexSignal (Value.num 3) true with
      | .error e => .error e
      | .ok r =>
        if rangeOk cexSignal r then
          match resolveSignals none [("S", Value.num 3)] true [] with
          | .error e => .error e
          | .ok tail => .ok ((cexSignal, toUnsigned r cexSignal.length) :: tail)
        else .error .rangeError := rfl
  rw [h2, cex_resolveRaw]
  decide

theorem cex_decodeValue : decodeValue cexSignal 2 true true = Value.num 4 := by
  unfold decodeValue
  simp [alookup, rawInt, cexSignal]
  norm_num

/-- C2, counterexample to the claim as stated: for the well-formed
one-signal message `cexMessage` (scale 2, offset 0, 8 bits, unsigned) the
mapping assigning the in-range value 3 to the signal is fully specified,
encodes without error (the raw rounds to 2), yet decoding the produced
payload returns 4, not 3 — `decode(encode(values))` differs from `values`
for an in-range, fully specified mapping. -/
theorem claim_C2_roundtrip_counterexample :
    MessageWF cexMessage ∧
    rangeOk cexSignal (roundHalfAway ((3 - cexSignal.offset) / cexSignal.scale)) = true ∧
    cexMessage.encode [("S", Value.num 3)] true false = .ok [2] ∧
    cexMessage.decode [2] true true = .ok [("S", Value.num 4)] ∧
    Value.num 4 ≠ Value.num 3 := by
  refine ⟨by decide, ?_, ?_, ?_, by decide⟩
  · rw [cex_roundHalfAway]
    decide
  · have h1 : cexMessage.encode [("S", Value.num 3)] true false =
        match resolveSignals none [("S", Value.num 3)] true cexMessage.signals with
        | .error e => .error e
        | .ok pairs =>
          .ok (bitsToBytes cexMessage.byte_length
            (encodeBits pairs (List.replicate (8 * cexMessage.byte_length) false))) := rfl
    rw [h1, cex_resolveSignals]
    decide
  · have h1 : cexMessage.decode [2] true true =
        .ok [("S", decodeValue cexSignal 2 true true)] := rfl
    rw [h1, cex_decodeValue]

/-- Witness for the amended round trip: the multiplexed two-byte fixture
with both byte orders, a signed scaled signal and a value table satisfies
the hypotheses, and the round trip applies to it. -/
theorem claim_C2_roundtrip_image_witness :
    MessageWF witMessage ∧
    (∀ s ∈ witMessage.signals, witRawOf s.name < 2 ^ s.length) ∧
    (∃ p, witMessage.encode (imageValues witMessage witRawOf) true false = .ok p ∧
      witMessage.decode p true true = .ok (imageValues witMessage witRawOf)) :=
  ⟨by decide, by decide,
    claim_C2_roundtrip_image witMessage witRawOf (by decide) (by decide)⟩

/-- C5: decoding a payload shorter than the message's declared byte length
fails with a `LengthError` and produces no partial result; a payload of at
least the declared length is accepted, and (for signals that fit the
declared length, the parser's invariant) the trailing bytes are ignored:
the result equals decoding the truncated payload. -/
theorem claim_C5_decode_length (m : Message) (p : List Nat) (dc sc : Bool) :
    (p.length < m.byte_length → m.decode p dc sc = .error .lengthError) ∧
    (m.byte_length ≤ p.length →
      (∃ r, m.decode p dc sc = .ok r) ∧
      ((∀ s ∈ m.signals, ∀ i < s.length, sigIdx s i < 8 * m.byte_length) →
        m.decode p dc sc = m.decode (p.take m.byte_length) dc sc)) := by
  refine ⟨?_, ?_⟩
  · intro h
    unfold Message.decode
    rw [if_pos h]
  · intro h
    refine ⟨⟨_, by unfold Message.decode; rw [if_neg (not_lt.mpr h)]⟩, ?_⟩
    intro hfit
    have hbit : ∀ n < 8 * m.byte_length,
        bitAt (p.take m.byte_length) n = bitAt p n := by
      intro n hn
      have hdiv : n / 8 < m.byte_length := by omega
      unfold bitAt
      rw [List.getD_eq_getElem?_getD, List.getD_eq_getElem?_getD,
        List.getElem?_take_of_lt hdiv]
    have hex : ∀ s ∈ m.signals,
        extractRaw (p.take m.byte_length) s = extractRaw p s := by
      intro s hs
      exact extractRaw_congr _ _ s
        (fun i hi => hbit (sigIdx s i) (hfit s hs i hi))
    have hm : muxSelector m (p.take m.byte_length) = muxSelector m p := by
      unfold muxSelector
      rcases hf : m.signals.find? isMultiplexorSignal with _ | t
      · rfl
      · simp only [hex t (List.mem_of_find?_eq_some hf)]
    have htlen : ¬ ((p.take m.byte_length).length < m.byte_length) := by
      rw [List.length_take]
      omega
    unfold Message.decode
    rw [if_neg (not_lt.mpr h), if_neg htlen, hm]
    congr 1
    refine List.map_congr_left ?_
    intro s hs
    rw [hex s (List.mem_of_mem_filter hs)]

theorem claim_C5_decode_length_witness :
    cexMessage.decode [] true true = .error .lengthError ∧
    (∃ r, cexMessage.decode [2, 99] true true = .ok r) ∧
    cexMessage.decode [2, 99] true true =
      cexMessage.decode ([2, 99].take cexMessage.byte_length) true true :=
  ⟨(claim_C5_decode_length cexMessage [] true true).1 (by decide),
   ((claim_C5_decode_length cexMessage [2, 99] true true).2 (by decide)).1,
   ((claim_C5_decode_length cexMessage [2, 99] true true).2 (by decide)).2
     (by decide)⟩

/-! ## Lookup dispatch of encode_message and decode_message -/

theorem resolveRaw_ne_notFound (s : Signal) (v : Value) (sc : Bool) :
    resolveRaw s v sc ≠ .error .notFoundError := by
  intro hc
  rcases v with q | lbl
  · rcases sc <;> simp [resolveRaw] at hc
  · rcases hl : rlookup s.choices lbl with _ | r <;> simp [resolveRaw, hl] at hc

theorem resolveSelector_ne_notFound (m : Message)
    (values : List (String × Value)) (sc : Bool) :
    resolveSelector m values sc ≠ .error .notFoundError := by
  unfold resolveSelector
  intro hc
  split at hc
  · cases hc
  · split at hc
    · simp at hc
    · split at hc
      · rename_i heq
        exact resolveRaw_ne_notFound _ _ _ (heq.trans (congrArg Except.error (by
          injection hc)))
      · split at hc <;> simp at hc

theorem resolveSignals_ne_notFound (sel : Option Nat)
    (values : List (String × Value)) (sc : Bool) (l : List Signal) :
    resolveSignals sel values sc l ≠ .error .notFoundError := by
  induction l with
  | nil => intro hc; cases hc
  | cons s rest ih =>
    unfold resolveSignals
    intro hc
    split at hc
    · split at hc
      · rename_i heq
        exact resolveRaw_ne_notFound _ _ _ (heq.trans (congrArg Except.error (by
          injection hc)))
      · split at hc
        · split at hc
          · rename_i heq
            exact ih (heq.trans (congrArg Except.error (by injection hc)))
          · cases hc
        · simp at hc
    · split at hc
      · simp at hc
      · exact ih hc

theorem encode_ne_notFound (m : Message) (values : List (String × Value))
    (sc pd : Bool) : m.encode values sc pd ≠ .error .notFoundError := by
  unfold Message.encode
  intro hc
  split at hc
  · rename_i heq
    exact resolveSelector_ne_notFound _ _ _ (heq.trans (congrArg Except.error (by
      injection hc)))
  · split at hc
    · rename_i heq
      exact resolveSignals_ne_notFound _ _ _ _ (heq.trans (congrArg Except.error (by
        injection hc)))
    · cases hc

theorem decode_ne_notFound (m : Message) (p : List Nat) (dc sc : Bool) :
    m.decode p dc sc ≠ .error .notFoundError := by
  unfold Message.decode
  intro hc
  split at hc <;> simp at hc

/-- C10: `encode_message` and `decode_message` resolve their key through the
frame-id lookup table first, fall back to the name table only on a miss,
delegate to the resolved message's `encode` (respectively `decode`) with the
given arguments, and fail with the lookup error exactly when the key is
present in neither table. -/
theorem claim_C10_lookup_dispatch (f : File) (k : FrameIdOrName)
    (data : List (String × Value)) (payload : List Nat) (sc pd dc sc2 : Bool) :
    (∀ m, frameLookup f k = some m →
      encode_message f k data sc pd = m.encode data sc pd ∧
      decode_message f k payload dc sc2 = m.decode payload dc sc2) ∧
    (frameLookup f k = none → ∀ m, nameLookup f k = some m →
      encode_message f k data sc pd = m.encode data sc pd ∧
      decode_message f k payload dc sc2 = m.decode payload dc sc2) ∧
    (encode_message f k data sc pd = .error .notFoundError ↔
      frameLookup f k = none ∧ nameLookup f k = none) ∧
    (decode_message f k payload dc sc2 = .error .notFoundError ↔
      frameLookup f k = none ∧ nameLookup f k = none) := by
  refine ⟨?_, ?_, ?_, ?_⟩
  · intro m hm
    constructor <;> simp [encode_message, decode_message, resolveMessage, hm]
  · intro hf m hm
    constructor <;> simp [encode_message, decode_message, resolveMessage, hf, hm]
  · constructor
    · intro hc
      rcases hfr : frameLookup f k with _ | m
      · rcases hnm : nameLookup f k with _ | m
        · exact ⟨rfl, rfl⟩
        · rw [encode_message, resolveMessage, hfr, hnm] at hc
          exact absurd hc (encode_ne_notFound m data sc pd)
      · rw [encode_message, resolveMessage, hfr] at hc
        exact absurd hc (encode_ne_notFound m data sc pd)
    · rintro ⟨hfr, hnm⟩
      rw [encode_message, resolveMessage, hfr, hnm]
  · constructor
    · intro hc
      rcases hfr : frameLookup f k with _ | m
      · rcases hnm : nameLookup f k with _ | m
        · exact ⟨rfl, rfl⟩
        · rw [decode_message, resolveMessage, hfr, hnm] at hc
          exact absurd hc (decode_ne_notFound m payload dc sc2)
      · rw [decode_message, resolveMessage, hfr] at hc
        exact absurd hc (decode_ne_notFound m payload dc sc2)
    · rintro ⟨hfr, hnm⟩
      rw [decode_message, resolveMessage, hfr, hnm]

theorem claim_C10_lookup_dispatch_witness :
    encode_message sampleFile (Sum.inl 1) [] true false =
      sampleMessageA.encode [] true false ∧
    decode_message sampleFile (Sum.inr "A") [0] true true =
      sampleMessageA.decode [0] true true ∧
    encode_message sampleFile (Sum.inl 99) [] true false =
      .error .notFoundError :=
  ⟨((claim_C10_lookup_dispatch sampleFile (Sum.inl 1) [] [0] true false
      true true).1 sampleMessageA (by decide)).1,
   ((claim_C10_lookup_dispatch sampleFile (Sum.inr "A") [] [0] true false
      true true).2.1 rfl sampleMessageA (by decide)).2,
   (claim_C10_lookup_dispatch sampleFile (Sum.inl 99) [] [0] true false
      true true).2.2.1.mpr ⟨by decide, rfl⟩⟩

end Cantools
